import Mathlib

/-!
Verification development for the olcPGEX_Media decode/synchronization pipeline
(`src/olcPGEX_Media.h`).  The C++ source is shallowly embedded: the two bounded
queues, the playback-clock logic of `GetVideoFrame`, the decode worker's packet
routing, the seek re-synchronization loop, and the audio-format selection are
translated into executable Lean definitions.  C++ `float`/`double` arithmetic
is modelled with exact rationals (the properties at stake are order comparisons
of timestamps); `uint16_t` arithmetic keeps its wrap-around modulo 2^16.
External FFmpeg collaborators (`AVFrame`, `AVAudioFifo`) are modelled from
their documented behaviour where the repository code calls into them.
-/

namespace OlcMedia

/-- Stream time base (`AVRational`): timestamps in integer units of
`num / den` seconds. -/
structure TimeBase where
  num : Int
  den : Int
deriving DecidableEq, Repr

/-- `AV_NOPTS_VALUE`: the timestamp an `AVFrame` carries after
`av_frame_alloc` / `av_frame_unref`. -/
def AV_NOPTS_VALUE : Int := -(2 ^ 63)

/-- Model of a decoded video `AVFrame`: the fields the pipeline reads are
`best_effort_timestamp` (for pts computation) and `pkt_size` (the code treats
`pkt_size == -1` as "empty frame", an artifact of decoder delay). -/
structure VFrame where
  best_effort_timestamp : Int
  pkt_size : Int
deriving DecidableEq, Repr

/-- A freshly allocated or unreferenced `AVFrame`: no packet data
(`pkt_size = -1`), no timestamp. -/
def emptyVFrame : VFrame := { best_effort_timestamp := AV_NOPTS_VALUE, pkt_size := -1 }

/-- Model of a decoded and resampled audio `AVFrame`: timestamp, the
empty-frame marker, and the interleaved sample values pushed into the
audio fifo (`nb_samples = samples.length`). -/
structure AFrame where
  best_effort_timestamp : Int
  pkt_size : Int
  samples : List Int
deriving DecidableEq, Repr

/-- `Media::CalculateVideoPts`: pts in seconds,
`best_effort_timestamp * time_base.num / time_base.den` (stated via
`Rat.divInt`, which agrees with rational division; see
`CalculateVideoPts_eq_div`). -/
def CalculateVideoPts (tb : TimeBase) (f : VFrame) : ℚ :=
  Rat.divInt (f.best_effort_timestamp * tb.num) tb.den

/-- `Media::CalculateAudioPts`: pts in seconds,
`best_effort_timestamp * time_base.num / time_base.den`. -/
def CalculateAudioPts (tb : TimeBase) (f : AFrame) : ℚ :=
  Rat.divInt (f.best_effort_timestamp * tb.num) tb.den

/-- Multiplication of a rational by a natural number, written so that it is
evaluable by the kernel; agrees with `q * n` (see `ratMulNat_eq`). -/
def ratMulNat (q : ℚ) (n : Nat) : ℚ := Rat.divInt (q.num * n) q.den

/-- `Media::VideoQueue`: circular buffer of pre-allocated frame slots.
`_size`, `_capacity`, `_insert_idx`, `_delete_idx` are `uint16_t` in the
source; `_data` is the slot array (always of length `_capacity` once
initialised).  The mutex is irrelevant to the sequential embedding. -/
structure VideoQueue where
  _size : Nat
  _capacity : Nat
  _insert_idx : Nat
  _delete_idx : Nat
  _data : List VFrame
deriving DecidableEq, Repr

namespace VideoQueue

/-- `VideoQueue::init`: fails (`Result::Error`) if `capacity <= 1`, otherwise
resets cursors and allocates `capacity` empty frame slots.  Allocation
failures of the C++ code have no analogue here. -/
def init (capacity : Nat) : Option VideoQueue :=
  if capacity ≤ 1 then none
  else some { _size := 0, _capacity := capacity, _insert_idx := 0, _delete_idx := 0,
              _data := List.replicate capacity emptyVFrame }

/-- `VideoQueue::back`: the slot the producer is about to fill. -/
def back (q : VideoQueue) : VFrame := q._data.getD q._insert_idx emptyVFrame

/-- `VideoQueue::front`: the oldest committed slot. -/
def front (q : VideoQueue) : VFrame := q._data.getD q._delete_idx emptyVFrame

/-- Decoding into the slot returned by `back()` (the effect of
`avcodec_receive_frame(ctx, video_fifo.back())` on the slot array). -/
def setBack (q : VideoQueue) (f : VFrame) : VideoQueue :=
  { q with _data := q._data.set q._insert_idx f }

/-- `VideoQueue::push`: advances the insertion cursor and increments `_size`
unconditionally (`uint16_t` increment wraps modulo 2^16). -/
def push (q : VideoQueue) : VideoQueue :=
  { q with _insert_idx := (q._insert_idx + 1) % q._capacity,
           _size := (q._size + 1) % 65536 }

/-- `VideoQueue::pop`: if `_size > 0`, unreferences the front slot and
advances the deletion cursor; otherwise does nothing. -/
def pop (q : VideoQueue) : VideoQueue :=
  if 0 < q._size then
    { q with _data := q._data.set q._delete_idx emptyVFrame,
             _delete_idx := (q._delete_idx + 1) % q._capacity,
             _size := q._size - 1 }
  else q

/-- `VideoQueue::size`. -/
def size (q : VideoQueue) : Nat := q._size

/-- `VideoQueue::capacity`. -/
def capacity (q : VideoQueue) : Nat := q._capacity

/-- `VideoQueue::clear`: unreferences every slot and resets size and both
cursors (only when the slot array is allocated). -/
def clear (q : VideoQueue) : VideoQueue :=
  if q._data.isEmpty then q
  else { q with _data := q._data.map fun _ => emptyVFrame,
                _size := 0, _insert_idx := 0, _delete_idx := 0 }

/-- The committed frames of the queue, oldest first: `_size` slots starting
at the deletion cursor. -/
def toList (q : VideoQueue) : List VFrame :=
  (List.range q._size).map fun i => q._data.getD ((q._delete_idx + i) % q._capacity) emptyVFrame

/-- Structural well-formedness of an initialised queue: the slot array has
length `_capacity`, both cursors are in range, the size does not exceed the
capacity and the capacity is at least the minimum `init` accepts. -/
def WF (q : VideoQueue) : Prop :=
  q._data.length = q._capacity ∧ q._delete_idx < q._capacity ∧
    q._insert_idx < q._capacity ∧ q._size ≤ q._capacity ∧ 2 ≤ q._capacity

instance (q : VideoQueue) : Decidable (WF q) := by
  unfold WF; infer_instance

end VideoQueue

/-- `Media::AudioQueue`, modelled at sample granularity: the wrapped
`AVAudioFifo` is a list of stored samples together with its allocated
capacity.  `AVAudioFifo` semantics follow the FFmpeg documentation:
`av_audio_fifo_size` is the stored sample count, `av_audio_fifo_space` the
remaining free space, `av_audio_fifo_drain` removes at most the stored count,
and `av_audio_fifo_write` reallocates the fifo when the incoming count
exceeds the free space. -/
structure AudioQueue where
  cap : Nat
  data : List Int
deriving DecidableEq, Repr

namespace AudioQueue

/-- `AudioQueue::init`: fails when `capacity` or `channels` is zero,
otherwise allocates an empty fifo of the given capacity (in samples). -/
def init (channels : Nat) (capacity : Nat) : Option AudioQueue :=
  if capacity = 0 ∨ channels = 0 then none
  else some { cap := capacity, data := [] }

/-- `av_audio_fifo_size`: number of stored samples. -/
def size (q : AudioQueue) : Nat := q.data.length

/-- `av_audio_fifo_space`: remaining free space in samples. -/
def space (q : AudioQueue) : Nat := q.cap - q.data.length

/-- `av_audio_fifo_drain`: removes `min n size` oldest samples. -/
def drain (q : AudioQueue) (n : Nat) : AudioQueue :=
  { q with data := q.data.drop (min n q.data.length) }

/-- `av_audio_fifo_write`: reallocates to `size + nb_samples` when the free
space is smaller than the incoming count, then appends all samples. -/
def write (q : AudioQueue) (xs : List Int) : AudioQueue :=
  let q' := if q.cap - q.data.length < xs.length then
              { q with cap := q.data.length + xs.length }
            else q
  { q' with data := q'.data ++ xs }

/-- `AudioQueue::push`: when the incoming sample count exceeds the free
space, first drains `min size (count - space)` oldest samples, then writes. -/
def push (q : AudioQueue) (xs : List Int) : AudioQueue :=
  let sp := q.cap - q.data.length
  let q' := if sp < xs.length then q.drain (min q.data.length (xs.length - sp)) else q
  q'.write xs

/-- `AudioQueue::clear`: drains everything that is stored. -/
def clear (q : AudioQueue) : AudioQueue := q.drain q.data.length

end AudioQueue

/-- `Media::Result`. -/
inductive Result where
  | Success
  | Error
deriving DecidableEq, Repr

/-- `Media::AudioFormat`: the target audio sample format accepted in
`Media::Settings`. -/
inductive AudioFormat where
  | Default
  | U8
  | S16
  | S32
  | F32
deriving DecidableEq, Repr

/-- FFmpeg `AVSampleFormat` (the members relevant to `ChooseAudioFormat`,
including the planar variants and the formats falling to its default case). -/
inductive AVSampleFormat where
  | NONE
  | U8
  | S16
  | S32
  | FLT
  | DBL
  | U8P
  | S16P
  | S32P
  | FLTP
  | DBLP
  | S64
  | S64P
deriving DecidableEq, Repr

/-- Whether an `AVSampleFormat` is planar (per-channel data planes). -/
def AVSampleFormat.isPlanar : AVSampleFormat → Bool
  | .U8P | .S16P | .S32P | .FLTP | .DBLP | .S64P => true
  | _ => false

/-- `Media::ChooseAudioFormat` as a function of the requested setting and the
stream's source sample format; returns the chosen `audio_format` together
with the chosen `audio_sample_size` in bytes.  The C++ switch has a default
case returning `Result::Error`, unreachable since `AudioFormat` is a closed
enumeration. -/
def ChooseAudioFormat (setting : AudioFormat) (src : AVSampleFormat) :
    AVSampleFormat × Nat :=
  match setting with
  | .Default =>
    match src with
    | .U8 | .U8P => (.U8, 1)
    | .S16 | .S16P => (.S16, 2)
    | .S32 | .S32P => (.S32, 4)
    | .FLT | .FLTP => (.FLT, 4)
    | _ => (.FLT, 4)
  | .U8 => (.U8, 1)
  | .S16 => (.S16, 2)
  | .S32 => (.S32, 4)
  | .F32 => (.FLT, 4)

/-- The target-format mapping as the specification words it: `Default` maps
`U8/U8P`, `S16/S16P`, `S32/S32P`, `FLT/FLTP` to their interleaved equivalent
and anything unrecognized to 32-bit float; a concrete setting maps to exactly
that format. -/
def specTargetFormat (setting : AudioFormat) (src : AVSampleFormat) : AVSampleFormat :=
  match setting with
  | .Default =>
    match src with
    | .U8 | .U8P => .U8
    | .S16 | .S16P => .S16
    | .S32 | .S32P => .S32
    | .FLT | .FLTP => .FLT
    | _ => .FLT
  | .U8 => .U8
  | .S16 => .S16
  | .S32 => .S32
  | .F32 => .FLT

/-- The fields of `olc::Media` the decode/synchronization pipeline reads and
writes.  `video_frame` holds the content last converted into the result
sprite (the "current frame" whose decal `GetVideoFrame` returns);
`finished_reading` and `keep_loading` are the atomic worker flags. -/
structure MediaState where
  is_paused : Bool
  finished_reading : Bool
  keep_loading : Bool
  video_opened : Bool
  attached_pic : Bool
  video_time_base : TimeBase
  video_fifo : VideoQueue
  last_video_pts : ℚ
  delta_time_accumulator : ℚ
  video_frame : VFrame
  audio_opened : Bool
  audio_time_base : TimeBase
  audio_fifo : AudioQueue
  audio_time : ℚ
  audio_frames_consumed : Nat
  audio_sample_rate : Nat
deriving DecidableEq, Repr

/-- The `olc::Decal*` returned by the `GetVideoFrame` functions: either the
null pointer or the result decal, identified by the frame content last
converted into it. -/
inductive DecalPtr where
  | null
  | decal (content : VFrame)
deriving DecidableEq, Repr

namespace Media

/-- `Media::IsVideoOpened`. -/
def IsVideoOpened (m : MediaState) : Bool := m.video_opened

/-- `Media::IsAudioOpened`. -/
def IsAudioOpened (m : MediaState) : Bool := m.audio_opened

/-- `Media::IsPaused`. -/
def IsPaused (m : MediaState) : Bool := m.is_paused

/-- `Media::HasAlbumArt`. -/
def HasAlbumArt (m : MediaState) : Bool := m.attached_pic

/-- `Media::FinishedReading`: false when no stream is open; otherwise true
exactly when the worker flag is set and every open stream's queue is empty. -/
def FinishedReading (m : MediaState) : Bool :=
  if (IsVideoOpened m || IsAudioOpened m) = false then false
  else if m.finished_reading then
    let video_finished := !(IsVideoOpened m && m.video_fifo.size != 0)
    let audio_finished := !(IsAudioOpened m && m.audio_fifo.size != 0)
    video_finished && audio_finished
  else false

/-- `Media::PeekFrame`: the front frame of the video fifo when non-empty. -/
def PeekFrame (m : MediaState) : Option VFrame :=
  if 0 < m.video_fifo.size then some m.video_fifo.front else none

/-- `Media::SkipVideoFrame`: pops the front video frame unless video is not
open, reading has finished, or the queue is empty. -/
def SkipVideoFrame (m : MediaState) : MediaState × Result :=
  if IsVideoOpened m = false then (m, .Error)
  else if FinishedReading m then (m, .Error)
  else if 0 < m.video_fifo.size then
    ({ m with video_fifo := m.video_fifo.pop }, .Success)
  else (m, .Error)

/-- The argument-less `Media::GetVideoFrame` (immediate pop): converts the
front frame into the result sprite and pops it, when video is open, reading
has not finished, and the queue is non-empty; in every case returns the
result decal. -/
def GetVideoFrameNow (m : MediaState) : MediaState × DecalPtr :=
  if IsVideoOpened m = false then (m, .decal m.video_frame)
  else if FinishedReading m then (m, .decal m.video_frame)
  else if 0 < m.video_fifo.size then
    let f := m.video_fifo.front
    let m' := { m with video_frame := f, video_fifo := m.video_fifo.pop }
    (m', .decal m'.video_frame)
  else (m, .decal m.video_frame)

/-- The `while (true)` synchronization loop of `Media::GetVideoFrame(float)`:
peek the front frame, record its pts in `last_video_pts`, present it when the
reference time is at or before that pts, otherwise skip it and continue.  The
loop is fuelled; every iteration pops one frame, so fuel `size + 1` (what
`GetVideoFrame` passes) is never exhausted and the out-of-fuel branch is
unreachable under the caller's guards. -/
def GetVideoFrameLoop : Nat → ℚ → MediaState → MediaState × DecalPtr
  | 0, _, m => (m, .decal m.video_frame)
  | fuel + 1, time_reference, m =>
    match PeekFrame m with
    | none => (m, .decal m.video_frame)
    | some next_frame =>
      let m' := { m with last_video_pts := CalculateVideoPts m.video_time_base next_frame }
      if time_reference ≤ m'.last_video_pts then GetVideoFrameNow m'
      else GetVideoFrameLoop fuel time_reference (SkipVideoFrame m').1

/-- `Media::GetVideoFrame(float delta_time)`: the time-driven variant.
Returns null when video is not open; falls back to the immediate variant when
reading finished or for an attached picture; returns the current frame when
paused or when the reference time has not reached `last_video_pts`; otherwise
runs the synchronization loop against the audio clock (audio open) or the
accumulated delta time. -/
def GetVideoFrameDelta (m : MediaState) (delta_time : ℚ) : MediaState × DecalPtr :=
  if IsVideoOpened m = false then (m, .null)
  else if FinishedReading m then GetVideoFrameNow m
  else if IsPaused m then (m, .decal m.video_frame)
  else if HasAlbumArt m then GetVideoFrameNow m
  else
    let step : MediaState × ℚ :=
      if IsAudioOpened m then (m, m.audio_time)
      else
        let m' := { m with delta_time_accumulator := m.delta_time_accumulator + delta_time }
        (m', m'.delta_time_accumulator)
    let m' := step.1
    let time_reference := step.2
    if time_reference < m'.last_video_pts then (m', .decal m'.video_frame)
    else GetVideoFrameLoop (m'.video_fifo.size + 1) time_reference m'

/-- A sequence of `GetVideoFrame(delta_time)` calls, returning the decal of
each call in order. -/
def runDeltaCalls : MediaState → List ℚ → List DecalPtr
  | _, [] => []
  | m, dt :: rest =>
    let r := GetVideoFrameDelta m dt
    r.2 :: runDeltaCalls r.1 rest

end Media

/-- A demuxed packet as routed by the decode worker, together with the result
of decoding it (the external codec collaborator): a video packet decodes into
the slot content `f` (empty frame marked by `pkt_size = -1`), an audio packet
decodes into zero or more audio frames, and `other` stands for a packet of a
stream that is not open. -/
inductive Packet where
  | video (f : VFrame)
  | audio (fs : List AFrame)
  | other
deriving DecidableEq, Repr

namespace Media

/-- The video branch of `Media::DecodingThread`'s routing phase: when the
queue has reached the worker's maximum (`capacity - 1`, or `1` for an
attached picture) pop the oldest frame, decode into the producer slot, and
commit it unless the decoded frame is empty. -/
def decodeVideoPacket (m : MediaState) (f : VFrame) : MediaState :=
  let max_video_queue_size : Nat :=
    if HasAlbumArt m then 1 else m.video_fifo.capacity - 1
  let fifo := if m.video_fifo.size = max_video_queue_size then m.video_fifo.pop
              else m.video_fifo
  let fifo := fifo.setBack f
  let fifo := if f.pkt_size != -1 then fifo.push else fifo
  { m with video_fifo := fifo }

/-- The audio branch of `Media::DecodingThread`'s routing phase, per decoded
frame: skip empty frames, otherwise resample into the target format and push
the samples into the audio fifo.  The resampler is modelled as an identity
conversion holding no residual samples. -/
def decodeAudioFrame (m : MediaState) (f : AFrame) : MediaState :=
  if f.pkt_size != -1 then
    { m with audio_fifo := m.audio_fifo.push f.samples }
  else m

/-- One iteration of `Media::DecodingThread`'s read/route phases: route the
packet to the stream it belongs to, when that stream is open. -/
def decodePacket (m : MediaState) (p : Packet) : MediaState :=
  match p with
  | .video f => if IsVideoOpened m then decodeVideoPacket m f else m
  | .audio fs => if IsAudioOpened m then fs.foldl decodeAudioFrame m else m
  | .other => m

/-- `Media::DecodingThread`, sequentially: clears the finished flag, routes
the packets the demuxer yields until end-of-stream, then sets the finished
flag.  The wait phase and the cooperative `keep_loading` shutdown concern
thread scheduling and have no effect on this packet-level embedding. -/
def DecodingThread (m : MediaState) (packets : List Packet) : MediaState :=
  let m' := { m with finished_reading := false }
  let m' := packets.foldl decodePacket m'
  { m' with finished_reading := true }

/-- The per-seek state of `Media::AdjustSeekedPosition`: the media fields,
the two `video_seeked` / `audio_seeked` locals, and — as observation only —
the arguments of every `video_fifo.push()` and `audio_fifo.push()` call made
so far (`video_pushed`, `audio_pushed`). -/
structure AdjustState where
  media : MediaState
  video_seeked : Bool
  audio_seeked : Bool
  video_pushed : List VFrame
  audio_pushed : List AFrame
deriving DecidableEq, Repr

/-- The video branch of `Media::AdjustSeekedPosition`: like the worker's
video branch (maximum `capacity - 1`), but the decoded frame is committed
only when its pts is at or after the wanted timepoint, which also marks the
video stream as seeked. -/
def adjustVideoPacket (wanted_timepoint : ℚ) (st : AdjustState) (f : VFrame) :
    AdjustState :=
  let m := st.media
  let max_video_queue_size : Nat := m.video_fifo.capacity - 1
  let fifo := if m.video_fifo.size = max_video_queue_size then m.video_fifo.pop
              else m.video_fifo
  let fifo := fifo.setBack f
  if f.pkt_size != -1 && decide (wanted_timepoint ≤ CalculateVideoPts m.video_time_base f) then
    { st with media := { m with video_fifo := fifo.push },
              video_seeked := true,
              video_pushed := st.video_pushed ++ [f] }
  else
    { st with media := { m with video_fifo := fifo } }

/-- The audio branch of `Media::AdjustSeekedPosition`, per decoded frame:
frames before the wanted timepoint are dropped; the first frame at or after
it resets the audio clock (`audio_time`, `audio_frames_consumed`, the latter
truncated as `size_t(audio_time * audio_sample_rate)`); every accepted frame
is resampled and pushed. -/
def adjustAudioFrame (wanted_timepoint : ℚ) (st : AdjustState) (f : AFrame) :
    AdjustState :=
  if f.pkt_size != -1 && decide (wanted_timepoint ≤ CalculateAudioPts st.media.audio_time_base f) then
    let m := st.media
    let pts := CalculateAudioPts m.audio_time_base f
    let m := if st.audio_seeked = false then
               { m with audio_time := pts,
                        audio_frames_consumed := (ratMulNat pts m.audio_sample_rate).floor.toNat }
             else m
    { st with media := { m with audio_fifo := m.audio_fifo.push f.samples },
              audio_seeked := true,
              audio_pushed := st.audio_pushed ++ [f] }
  else st

/-- One read/route iteration of `Media::AdjustSeekedPosition`. -/
def adjustStep (wanted_timepoint : ℚ) (st : AdjustState) (p : Packet) : AdjustState :=
  match p with
  | .video f => if IsVideoOpened st.media then adjustVideoPacket wanted_timepoint st f else st
  | .audio fs => if IsAudioOpened st.media then fs.foldl (adjustAudioFrame wanted_timepoint) st else st
  | .other => st

/-- The block `Media::AdjustSeekedPosition` runs once both streams are
seeked: rebase `last_video_pts` and the delta-time accumulator on the front
frame of the video queue. -/
def adjustFinalize (st : AdjustState) : AdjustState :=
  let m := st.media
  let m := if IsVideoOpened m then
             let pts := CalculateVideoPts m.video_time_base m.video_fifo.front
             { m with last_video_pts := pts, delta_time_accumulator := pts }
           else m
  { st with media := m }

/-- The loop of `Media::AdjustSeekedPosition`: each iteration first checks
whether both streams are seeked (finalizing and stopping if so), then reads
the next packet — stopping at end-of-stream or read error — and routes it. -/
def adjustLoop (wanted_timepoint : ℚ) : AdjustState → List Packet → AdjustState
  | st, packets =>
    if st.video_seeked && st.audio_seeked then adjustFinalize st
    else
      match packets with
      | [] => st
      | p :: rest => adjustLoop wanted_timepoint (adjustStep wanted_timepoint st p) rest

/-- `Media::AdjustSeekedPosition`: runs the re-synchronization loop with a
stream initially considered seeked exactly when it is not open.  `packets`
are the packets the demuxer yields from the coarse-seek position onward. -/
def AdjustSeekedPosition (wanted_timepoint : ℚ) (m : MediaState) (packets : List Packet) :
    MediaState :=
  (adjustLoop wanted_timepoint
    { media := m, video_seeked := !IsVideoOpened m, audio_seeked := !IsAudioOpened m,
      video_pushed := [], audio_pushed := [] } packets).media

/-- `Media::Pause`: does nothing when nothing is open or already paused. -/
def PauseM (m : MediaState) : MediaState :=
  if (IsAudioOpened m || IsVideoOpened m) = false then m
  else if IsPaused m then m
  else { m with is_paused := true }

/-- `Media::Play`: does nothing when nothing is open or not paused. -/
def PlayM (m : MediaState) : MediaState :=
  if (IsAudioOpened m || IsVideoOpened m) = false then m
  else if IsPaused m = false then m
  else { m with is_paused := false }

/-- `Media::StopDecodingThread`: clears `keep_loading`, sets the finished
flag and joins the worker. -/
def StopDecodingThreadM (m : MediaState) : MediaState :=
  { m with keep_loading := false, finished_reading := true }

/-- `Media::StartDecodingThread`: sets `keep_loading`, clears the finished
flag and spawns the worker. -/
def StartDecodingThreadM (m : MediaState) : MediaState :=
  { m with keep_loading := true, finished_reading := false }

/-- `Media::Seek`: errors when nothing is open; otherwise pauses and stops
the worker, issues the coarse seek (`seek_ok` models the sign of the
`av_seek_frame` response), on success clears both open queues, flushes the
decoders (external state) and adjusts the position, on failure changes
nothing else; in both cases restarts the worker, resumes playback, and
reports the coarse-seek failure as the result. -/
def Seek (m : MediaState) (seek_ok : Bool) (new_time : ℚ) (packets : List Packet) :
    MediaState × Result :=
  if (IsVideoOpened m || IsAudioOpened m) = false then (m, .Error)
  else
    let m := PauseM m
    let m := StopDecodingThreadM m
    let step : MediaState × Result :=
      if seek_ok then
        let m := if IsVideoOpened m then { m with video_fifo := m.video_fifo.clear } else m
        let m := if IsAudioOpened m then { m with audio_fifo := m.audio_fifo.clear } else m
        (AdjustSeekedPosition new_time m packets, .Success)
      else (m, .Error)
    (PlayM (StartDecodingThreadM step.1), step.2)

end Media

/-- Invariant of the re-synchronization loop: every frame or block whose
push into a queue has been observed so far has pts at or after the wanted
timepoint. -/
def AdjustInv (t : ℚ) (st : Media.AdjustState) : Prop :=
  (∀ f ∈ st.video_pushed, t ≤ CalculateVideoPts st.media.video_time_base f) ∧
    (∀ a ∈ st.audio_pushed, t ≤ CalculateAudioPts st.media.audio_time_base a)

/-- Specification predicate for the outcome of the synchronization loop of
`GetVideoFrame(delta_time)` on a queue whose committed frames are `L`: the
frames with pts strictly below the reference time are popped without being
presented; the first remaining frame — the first with pts at or after the
reference, an exact-equal pts included — is popped and presented, becoming
the current frame; when every queued frame is below the reference the queue
is fully drained and the previous current frame `old` is returned. -/
def SyncOutcome (tb : TimeBase) (L : List VFrame) (old : VFrame) (tr : ℚ)
    (r : MediaState × DecalPtr) : Prop :=
  match L.dropWhile (fun f => decide (CalculateVideoPts tb f < tr)) with
  | [] => r.2 = .decal old ∧ r.1.video_fifo.size = 0 ∧ r.1.video_frame = old
  | f :: rest =>
    r.2 = .decal f ∧ r.1.video_fifo.toList = rest ∧ r.1.video_frame = f ∧
      tr ≤ CalculateVideoPts tb f

/-- One `push` or `pop` call on the video queue. -/
inductive VideoOp where
  | push
  | pop
deriving DecidableEq, Repr

/-- Runs a sequence of `push`/`pop` calls on the video queue. -/
def VideoQueue.run (q : VideoQueue) (ops : List VideoOp) : VideoQueue :=
  ops.foldl (fun q' op => match op with | .push => q'.push | .pop => q'.pop) q

/-- A `push`/`pop` sequence respects the caller discipline documented for the
queue: each `push` happens only when `size < capacity` (the worker guarantees
this by popping the oldest frame first when saturated). -/
def VideoQueue.CallerDisciplined : VideoQueue → List VideoOp → Prop
  | _, [] => True
  | q, .push :: rest => q.size < q.capacity ∧ CallerDisciplined q.push rest
  | q, .pop :: rest => CallerDisciplined q.pop rest

instance instDecidableCallerDisciplined :
    ∀ (q : VideoQueue) (ops : List VideoOp), Decidable (q.CallerDisciplined ops)
  | _, [] => by unfold VideoQueue.CallerDisciplined; infer_instance
  | q, .push :: rest =>
    have : Decidable (q.push.CallerDisciplined rest) := instDecidableCallerDisciplined _ _
    by unfold VideoQueue.CallerDisciplined; infer_instance
  | q, .pop :: rest =>
    have : Decidable (q.pop.CallerDisciplined rest) := instDecidableCallerDisciplined _ _
    by unfold VideoQueue.CallerDisciplined; infer_instance

/-! Concrete instances used to evaluate the claims on explicit inputs. -/

/-- The result of `video_fifo.init(2)`: the smallest capacity `init` accepts. -/
def sampleVideoQueue : VideoQueue := ⟨0, 2, 0, 0, [emptyVFrame, emptyVFrame]⟩

/-- A 25 fps time base: one timestamp unit is `1/25` of a second. -/
def sampleTimeBase : TimeBase := ⟨1, 25⟩

/-- A freshly opened video-only state: video open with an empty capacity-2
queue at 25 fps, playing, worker running, audio closed. -/
def sampleState : MediaState :=
  { is_paused := false, finished_reading := false, keep_loading := true,
    video_opened := true, attached_pic := false, video_time_base := sampleTimeBase,
    video_fifo := sampleVideoQueue, last_video_pts := 0, delta_time_accumulator := 0,
    video_frame := emptyVFrame, audio_opened := false, audio_time_base := ⟨1, 1⟩,
    audio_fifo := ⟨1000, []⟩, audio_time := 0, audio_frames_consumed := 0,
    audio_sample_rate := 0 }

/-- A state with neither stream open (before `Open`, or after `Close`). -/
def closedState : MediaState := { sampleState with video_opened := false }

/-- A state whose decode worker has signalled end-of-stream. -/
def finishedState : MediaState := { sampleState with finished_reading := true }

/-- A capacity-3 video queue holding one committed frame with timestamp `2`
(pts `2/25 = 0.08 s` at 25 fps). -/
def c1Queue : VideoQueue := ⟨1, 3, 1, 0, [⟨2, 100⟩, emptyVFrame, emptyVFrame]⟩

/-- A playing state with audio clock at `1/20 = 0.05 s` and one queued video
frame at pts `0.08 s`. -/
def c1State : MediaState :=
  { sampleState with video_fifo := c1Queue, audio_opened := true,
                     audio_time := mkRat 1 20, audio_sample_rate := 48000 }

/-- A playing state with both streams open, used for the seek
re-synchronization runs. -/
def audioOpenState : MediaState :=
  { sampleState with audio_opened := true, audio_sample_rate := 48000 }

/-- Re-synchronization start state for a video-only stream. -/
def seekStateA : Media.AdjustState :=
  { media := sampleState, video_seeked := false, audio_seeked := true,
    video_pushed := [], audio_pushed := [] }

/-- Re-synchronization start state for a video-and-audio stream. -/
def seekStateB : Media.AdjustState :=
  { media := audioOpenState, video_seeked := false, audio_seeked := false,
    video_pushed := [], audio_pushed := [] }

/-- Packets for the second re-synchronization run: two video frames at and
after the target (pts `1` and `26/25`), then the first audio frame at the
target. -/
def seekPacketsB : List Packet :=
  [.video ⟨25, 100⟩, .video ⟨26, 100⟩, .audio [⟨1, 100, [7]⟩]]

/-- The first 600 samples pushed in the audio-queue scenario. -/
def firstAudioBatch : List Int := (List.range 600).map Int.ofNat

/-- The next 600 samples pushed in the audio-queue scenario. -/
def secondAudioBatch : List Int := (List.range' 600 600).map Int.ofNat

/-! Theorems.  First the bridging facts for the kernel-evaluable rational
arithmetic, then the claims in order. -/

/-- The pts computation agrees with the division
`best_effort_timestamp * num / den` of the C++ source. -/
theorem CalculateVideoPts_eq_div (tb : TimeBase) (f : VFrame) :
    CalculateVideoPts tb f =
      ((f.best_effort_timestamp * tb.num : Int) : ℚ) / ((tb.den : Int) : ℚ) :=
  Rat.divInt_eq_div _ _

/-- The audio pts computation agrees with the division of the C++ source. -/
theorem CalculateAudioPts_eq_div (tb : TimeBase) (f : AFrame) :
    CalculateAudioPts tb f =
      ((f.best_effort_timestamp * tb.num : Int) : ℚ) / ((tb.den : Int) : ℚ) :=
  Rat.divInt_eq_div _ _

/-- `ratMulNat` is multiplication. -/
theorem ratMulNat_eq (q : ℚ) (n : Nat) : ratMulNat q n = q * n := by
  rw [ratMulNat, Rat.divInt_eq_div]
  push_cast
  rw [mul_div_right_comm, Rat.num_div_den]

/-- C9 (confirmed): for every requested setting and source sample format, the
format `ChooseAudioFormat` selects is the one the specification describes —
under `Default`, the interleaved equivalent for `U8/U8P`, `S16/S16P`,
`S32/S32P`, `FLT/FLTP` and 32-bit float for anything else; under a concrete
setting, exactly that format — and the selected format is never planar. -/
theorem chooseAudioFormat_matches_spec :
    ∀ (setting : AudioFormat) (src : AVSampleFormat),
      (ChooseAudioFormat setting src).1 = specTargetFormat setting src ∧
        ((ChooseAudioFormat setting src).1).isPlanar = false := by
  intro setting src
  cases setting <;> cases src <;> exact ⟨rfl, rfl⟩

/-- C10 (confirmed): when neither stream is open, `FinishedReading` returns
false — although the function's documentation comment promises true when the
media file was not opened, the first guard of the implementation returns
false. -/
theorem finishedReading_false_when_not_opened :
    ∀ m : MediaState, m.video_opened = false → m.audio_opened = false →
      Media.FinishedReading m = false := by
  intro m hv ha
  simp [Media.FinishedReading, Media.IsVideoOpened, Media.IsAudioOpened, hv, ha]

/-- Witness for C10: the claim's hypotheses hold at `closedState` and the
theorem applies there. -/
theorem finishedReading_false_when_not_opened_witness :
    closedState.video_opened = false ∧ closedState.audio_opened = false ∧
      Media.FinishedReading closedState = false :=
  ⟨by decide, by decide,
    finishedReading_false_when_not_opened closedState (by decide) (by decide)⟩

/-- C6 (confirmed): with at least one stream open and the worker's
end-of-stream flag set, `FinishedReading` returns true exactly when every
open stream's queue is drained — hence false as long as the video queue or
the audio queue of an open stream is non-empty. -/
theorem finishedReading_iff_queues_drained :
    ∀ m : MediaState, (m.video_opened || m.audio_opened) = true →
      m.finished_reading = true →
      (Media.FinishedReading m = true ↔
        ((m.video_opened = true → m.video_fifo.size = 0) ∧
         (m.audio_opened = true → m.audio_fifo.size = 0))) := by
  intro m hopen hflag
  cases hv : m.video_opened <;> cases ha : m.audio_opened <;>
    simp_all [Media.FinishedReading, Media.IsVideoOpened, Media.IsAudioOpened]

/-- Witness for C6: the hypotheses hold at `finishedState` (video open,
flag set, both queues empty) and the theorem applies there. -/
theorem finishedReading_iff_queues_drained_witness :
    (finishedState.video_opened || finishedState.audio_opened) = true ∧
      finishedState.finished_reading = true ∧
      (Media.FinishedReading finishedState = true ↔
        ((finishedState.video_opened = true → finishedState.video_fifo.size = 0) ∧
         (finishedState.audio_opened = true → finishedState.audio_fifo.size = 0))) :=
  ⟨by decide, by decide,
    finishedReading_iff_queues_drained finishedState (by decide) (by decide)⟩

/-- C2 (counterexample): on a successfully initialised capacity-2 queue, the
sequence `push, push, push` drives `size()` to 3, exceeding `capacity()` —
`push()` increments the size unconditionally, so the claimed bound fails for
unrestricted call sequences. -/
theorem videoQueue_overflow_counterexample :
    VideoQueue.init 2 = some sampleVideoQueue ∧
      (sampleVideoQueue.run [.push, .push, .push]).size = 3 ∧
      (sampleVideoQueue.run [.push, .push, .push]).capacity = 2 ∧
      ¬ ((sampleVideoQueue.run [.push, .push, .push]).size ≤
          (sampleVideoQueue.run [.push, .push, .push]).capacity) := by
  refine ⟨by decide, by decide, by decide, by decide⟩

/-- C2 (corrected): for every `push`/`pop` sequence in which each `push` is
issued only while `size() < capacity()` — the discipline the queue documents
and the decode worker maintains by popping the oldest frame first — `size()`
never exceeds `capacity()`; and `pop()` on an empty queue is a no-op, leaving
size, insertion cursor and deletion cursor (the whole queue) unchanged. -/
theorem videoQueue_size_le_capacity (q : VideoQueue) (ops : List VideoOp)
    (hsize : q.size ≤ q.capacity) (hcap : q.capacity ≤ 65535)
    (hops : q.CallerDisciplined ops) :
    (q.run ops).size ≤ (q.run ops).capacity ∧
      ∀ q' : VideoQueue, q'.size = 0 → q'.pop = q' := by
  constructor
  · induction ops generalizing q with
    | nil => exact hsize
    | cons op rest ih =>
      cases op with
      | push =>
        obtain ⟨hlt, hrest⟩ := hops
        have hlt' : q._size < q._capacity := hlt
        have hcap' : q._capacity ≤ 65535 := hcap
        have hsz : q.push._size ≤ q.push._capacity := by
          show (q._size + 1) % 65536 ≤ q._capacity
          rw [Nat.mod_eq_of_lt (by omega)]
          omega
        exact ih q.push hsz hcap' hrest
      | pop =>
        have hpc : q.pop._capacity = q._capacity := by
          unfold VideoQueue.pop
          split <;> rfl
        have hps : q.pop._size ≤ q._size := by
          unfold VideoQueue.pop
          split <;> simp
        have hsz : q.pop._size ≤ q.pop._capacity := by
          rw [hpc]
          exact le_trans hps hsize
        have hcap' : q.pop._capacity ≤ 65535 := by rw [hpc]; exact hcap
        exact ih q.pop hsz hcap' hops
  · intro q' hq'
    have hq2 : q'._size = 0 := hq'
    simp [VideoQueue.pop, hq2]

/-- Witness for C2 (corrected): a disciplined `push, pop, push, pop` sequence
on the capacity-2 queue satisfies the hypotheses and the conclusion. -/
theorem videoQueue_size_le_capacity_witness :
    (sampleVideoQueue.size ≤ sampleVideoQueue.capacity ∧
        sampleVideoQueue.capacity ≤ 65535 ∧
        sampleVideoQueue.CallerDisciplined [.push, .pop, .push, .pop]) ∧
      (sampleVideoQueue.run [.push, .pop, .push, .pop]).size ≤
        (sampleVideoQueue.run [.push, .pop, .push, .pop]).capacity :=
  ⟨⟨by decide, by decide, by decide⟩,
    (videoQueue_size_le_capacity sampleVideoQueue [.push, .pop, .push, .pop]
      (by decide) (by decide) (by decide)).1⟩

/-- C4 (counterexample): pushing 6 samples into a 4-sample-capacity queue
holding 2 samples cannot be served by draining — the implementation drains
everything stored (2 samples, not the 4 the claim's "exactly enough to make
room" would require) and the underlying fifo reallocates, so after the push
the queue stores 6 samples, exceeding the configured capacity 4. -/
theorem audioQueue_overflow_counterexample :
    ((⟨4, [0, 1]⟩ : AudioQueue)).cap = 4 ∧
      ((⟨4, [0, 1]⟩ : AudioQueue).push [2, 3, 4, 5, 6, 7]).size = 6 ∧
      ((⟨4, [0, 1]⟩ : AudioQueue).push [2, 3, 4, 5, 6, 7]).cap = 6 ∧
      ¬ (((⟨4, [0, 1]⟩ : AudioQueue).push [2, 3, 4, 5, 6, 7]).size ≤
          ((⟨4, [0, 1]⟩ : AudioQueue)).cap) := by
  refine ⟨by decide, by decide, by decide, by decide⟩

/-- C4 (corrected): for every push whose sample count is at most the
configured capacity, the push drains exactly `sample_count - free_space`
oldest samples when the count exceeds the free space (and nothing
otherwise — natural subtraction), then appends, never blocking; the capacity
is unchanged and afterwards `size() ≤ capacity()`.  In particular, pushing
600 then 600 samples into a 1000-sample queue keeps the most recent 1000
samples, discarding the first 200 (see the witness). -/
theorem audioQueue_push_drains_oldest (q : AudioQueue) (xs : List Int)
    (hsize : q.size ≤ q.cap) (hxs : xs.length ≤ q.cap) :
    (q.push xs).cap = q.cap ∧
      (q.push xs).data = q.data.drop (xs.length - q.space) ++ xs ∧
      (q.push xs).size ≤ (q.push xs).cap := by
  have hs : q.data.length ≤ q.cap := hsize
  have hdl : (q.data.drop (xs.length - (q.cap - q.data.length))).length =
      q.data.length - (xs.length - (q.cap - q.data.length)) := by
    simp
  by_cases h : q.cap - q.data.length < xs.length
  · have harg : min (min q.data.length (xs.length - (q.cap - q.data.length)))
        q.data.length = xs.length - (q.cap - q.data.length) := by omega
    have e2 : q.drain (min q.data.length (xs.length - (q.cap - q.data.length))) =
        ⟨q.cap, q.data.drop (xs.length - (q.cap - q.data.length))⟩ := by
      simp only [AudioQueue.drain]
      rw [harg]
    have hcond : ¬ (q.cap - (q.data.drop (xs.length - (q.cap - q.data.length))).length <
        xs.length) := by
      rw [hdl]; omega
    have e3 : AudioQueue.write ⟨q.cap, q.data.drop (xs.length - (q.cap - q.data.length))⟩ xs =
        ⟨q.cap, q.data.drop (xs.length - (q.cap - q.data.length)) ++ xs⟩ := by
      simp only [AudioQueue.write, hcond, if_false]
    have e1 : q.push xs = ⟨q.cap, q.data.drop (xs.length - (q.cap - q.data.length)) ++ xs⟩ := by
      rw [AudioQueue.push, if_pos h, e2, e3]
    refine ⟨by rw [e1], by rw [e1]; exact rfl, ?_⟩
    rw [e1]
    simp only [AudioQueue.size, List.length_append, hdl]
    omega
  · have hdrop : xs.length - (q.cap - q.data.length) = 0 := by omega
    have e1 : q.push xs = ⟨q.cap, q.data ++ xs⟩ := by
      rw [AudioQueue.push, if_neg h, AudioQueue.write, if_neg h]
    refine ⟨by rw [e1], ?_, ?_⟩
    · rw [e1]
      show q.data ++ xs = q.data.drop (xs.length - (q.cap - q.data.length)) ++ xs
      rw [hdrop, List.drop_zero]
    · rw [e1]
      simp only [AudioQueue.size, List.length_append]
      omega

set_option maxRecDepth 8000 in
/-- Witness for C4 (corrected): the spec's scenario — 600 samples stored in
a 1000-sample queue, 600 more pushed — satisfies the hypotheses, and the
conclusion instantiates to: capacity still 1000, the first 200 samples of
the first batch discarded, the most recent 1000 kept. -/
theorem audioQueue_push_drains_oldest_witness :
    ((⟨1000, firstAudioBatch⟩ : AudioQueue).size ≤ 1000 ∧
        secondAudioBatch.length ≤ 1000) ∧
      ((⟨1000, firstAudioBatch⟩ : AudioQueue).push secondAudioBatch).cap = 1000 ∧
      ((⟨1000, firstAudioBatch⟩ : AudioQueue).push secondAudioBatch).data =
        firstAudioBatch.drop 200 ++ secondAudioBatch ∧
      ((⟨1000, firstAudioBatch⟩ : AudioQueue).push secondAudioBatch).size ≤ 1000 := by
  have hlen1 : firstAudioBatch.length = 600 := by
    simp [firstAudioBatch]
  have hlen2 : secondAudioBatch.length = 600 := by
    simp [secondAudioBatch]
  have h := audioQueue_push_drains_oldest ⟨1000, firstAudioBatch⟩ secondAudioBatch
    (by simp [AudioQueue.size, hlen1]) (by simp [hlen2])
  refine ⟨⟨by simp [AudioQueue.size, hlen1], by simp [hlen2]⟩, h.1, ?_, ?_⟩
  · have := h.2.1
    simpa [AudioQueue.space, hlen1, hlen2] using this
  · simpa [h.1] using h.2.2

/-- C3 (counterexample): starting from a freshly initialised capacity-2
queue, the decode worker's three video packets with timestamps
`{0, 0.04, 0.08}` (timestamp units `0, 1, 2` at 25 fps) leave the queue
holding only the `0.08` frame: the worker caps the queue at
`capacity - 1 = 1` committed frame, evicting the oldest before each push. -/
theorem decodeWorker_capacity2_counterexample :
    VideoQueue.init 2 = some sampleVideoQueue ∧
      (Media.DecodingThread sampleState
        [.video ⟨0, 100⟩, .video ⟨1, 100⟩, .video ⟨2, 100⟩]).video_fifo.toList ≠
        [⟨1, 100⟩, ⟨2, 100⟩] ∧
      CalculateVideoPts sampleTimeBase ⟨1, 100⟩ = (0.04 : ℚ) ∧
      CalculateVideoPts sampleTimeBase ⟨2, 100⟩ = (0.08 : ℚ) :=
  ⟨by decide, by decide,
    by norm_num [CalculateVideoPts, sampleTimeBase, Rat.divInt_eq_div],
    by norm_num [CalculateVideoPts, sampleTimeBase, Rat.divInt_eq_div]⟩

/-- C3 (corrected): with a capacity-2 video queue, after the decode worker
processes the three video packets decoding to frames with timestamps
`{0, 0.04, 0.08}` with no intervening consumer pop, the queue holds exactly
the one frame `{0.08}`: the worker's maximum queue occupancy is
`capacity - 1 = 1` usable slot, so before each push at occupancy 1 the
oldest frame is evicted. -/
theorem decodeWorker_capacity2_keeps_latest :
    (Media.DecodingThread sampleState
        [.video ⟨0, 100⟩, .video ⟨1, 100⟩, .video ⟨2, 100⟩]).video_fifo.toList =
      [⟨2, 100⟩] ∧
      (Media.DecodingThread sampleState
        [.video ⟨0, 100⟩, .video ⟨1, 100⟩, .video ⟨2, 100⟩]).video_fifo.size = 1 ∧
      sampleVideoQueue.capacity - 1 = 1 ∧
      CalculateVideoPts sampleTimeBase ⟨0, 100⟩ = 0 :=
  ⟨by decide, by decide, by decide, by decide⟩

/-- The video branch of the re-synchronization step preserves both time
bases, the audio observation list, and extends the video observation list
only with a frame whose pts is at or after the wanted timepoint. -/
theorem adjustVideoPacket_inv (t : ℚ) (st : Media.AdjustState) (f : VFrame)
    (h : AdjustInv t st) : AdjustInv t (Media.adjustVideoPacket t st f) ∧
      (Media.adjustVideoPacket t st f).media.video_time_base = st.media.video_time_base ∧
      (Media.adjustVideoPacket t st f).media.audio_time_base = st.media.audio_time_base := by
  obtain ⟨hv, ha⟩ := h
  unfold Media.adjustVideoPacket
  dsimp only
  split
  case isTrue hcond =>
    have hpts : t ≤ CalculateVideoPts st.media.video_time_base f := by
      have := (Bool.and_eq_true _ _).mp hcond
      exact of_decide_eq_true this.2
    refine ⟨⟨?_, ha⟩, rfl, rfl⟩
    intro g hg
    rcases List.mem_append.mp hg with hg | hg
    · exact hv g hg
    · rw [List.mem_singleton.mp hg]
      exact hpts
  case isFalse hcond =>
    exact ⟨⟨hv, ha⟩, rfl, rfl⟩

/-- The audio branch of the re-synchronization step (one decoded frame)
preserves both time bases, the video observation list, and extends the audio
observation list only with a block whose pts is at or after the wanted
timepoint. -/
theorem adjustAudioFrame_inv (t : ℚ) (st : Media.AdjustState) (f : AFrame)
    (h : AdjustInv t st) : AdjustInv t (Media.adjustAudioFrame t st f) ∧
      (Media.adjustAudioFrame t st f).media.video_time_base = st.media.video_time_base ∧
      (Media.adjustAudioFrame t st f).media.audio_time_base = st.media.audio_time_base := by
  obtain ⟨hv, ha⟩ := h
  unfold Media.adjustAudioFrame
  dsimp only
  split
  case isTrue hcond =>
    have hpts : t ≤ CalculateAudioPts st.media.audio_time_base f := by
      have := (Bool.and_eq_true _ _).mp hcond
      exact of_decide_eq_true this.2
    constructor
    · constructor
      · intro g hg
        split <;> exact hv g hg
      · intro a hA
        rcases List.mem_append.mp hA with hA | hA
        · split <;> exact ha a hA
        · rw [List.mem_singleton.mp hA]
          split <;> exact hpts
    · constructor <;> split <;> rfl
  case isFalse hcond =>
    exact ⟨⟨hv, ha⟩, rfl, rfl⟩

/-- The audio branch of the re-synchronization step over all frames a packet
decodes to preserves the invariant and both time bases. -/
theorem adjustAudioFold_inv (t : ℚ) :
    ∀ (fs : List AFrame) (st : Media.AdjustState), AdjustInv t st →
      AdjustInv t (fs.foldl (Media.adjustAudioFrame t) st) ∧
        (fs.foldl (Media.adjustAudioFrame t) st).media.video_time_base =
          st.media.video_time_base ∧
        (fs.foldl (Media.adjustAudioFrame t) st).media.audio_time_base =
          st.media.audio_time_base := by
  intro fs
  induction fs with
  | nil => intro st h; exact ⟨h, rfl, rfl⟩
  | cons f rest ih =>
    intro st h
    have step := adjustAudioFrame_inv t st f h
    have tail := ih (Media.adjustAudioFrame t st f) step.1
    exact ⟨tail.1, tail.2.1.trans step.2.1, tail.2.2.trans step.2.2⟩

/-- One routing step of the re-synchronization loop preserves the invariant
and both time bases. -/
theorem adjustStep_inv (t : ℚ) (st : Media.AdjustState) (p : Packet)
    (h : AdjustInv t st) : AdjustInv t (Media.adjustStep t st p) ∧
      (Media.adjustStep t st p).media.video_time_base = st.media.video_time_base ∧
      (Media.adjustStep t st p).media.audio_time_base = st.media.audio_time_base := by
  cases p with
  | video f =>
    simp only [Media.adjustStep]
    split
    · exact adjustVideoPacket_inv t st f h
    · exact ⟨h, rfl, rfl⟩
  | audio fs =>
    simp only [Media.adjustStep]
    split
    · exact adjustAudioFold_inv t fs st h
    · exact ⟨h, rfl, rfl⟩
  | other => exact ⟨h, rfl, rfl⟩

/-- The finalize block preserves the invariant and both time bases. -/
theorem adjustFinalize_inv (t : ℚ) (st : Media.AdjustState)
    (h : AdjustInv t st) : AdjustInv t (Media.adjustFinalize st) ∧
      (Media.adjustFinalize st).media.video_time_base = st.media.video_time_base ∧
      (Media.adjustFinalize st).media.audio_time_base = st.media.audio_time_base := by
  obtain ⟨hv, ha⟩ := h
  unfold Media.adjustFinalize
  dsimp only
  refine ⟨⟨?_, ?_⟩, ?_, ?_⟩ <;> first
    | (intro g hg; split <;> first | exact hv g hg | exact ha g hg)
    | (split <;> rfl)

/-- The re-synchronization loop preserves the invariant and both time
bases across any packet sequence. -/
theorem adjustLoop_inv (t : ℚ) :
    ∀ (ps : List Packet) (st : Media.AdjustState), AdjustInv t st →
      AdjustInv t (Media.adjustLoop t st ps) ∧
        (Media.adjustLoop t st ps).media.video_time_base = st.media.video_time_base ∧
        (Media.adjustLoop t st ps).media.audio_time_base = st.media.audio_time_base := by
  intro ps
  induction ps with
  | nil =>
    intro st h
    by_cases hb : (st.video_seeked && st.audio_seeked) = true
    · have e : Media.adjustLoop t st [] = Media.adjustFinalize st := by
        rw [Media.adjustLoop.eq_def]; dsimp only; rw [if_pos hb]
      rw [e]
      exact adjustFinalize_inv t st h
    · have e : Media.adjustLoop t st [] = st := by
        rw [Media.adjustLoop.eq_def]; dsimp only; rw [if_neg hb]
      rw [e]
      exact ⟨h, rfl, rfl⟩
  | cons p rest ih =>
    intro st h
    by_cases hb : (st.video_seeked && st.audio_seeked) = true
    · have e : Media.adjustLoop t st (p :: rest) = Media.adjustFinalize st := by
        rw [Media.adjustLoop.eq_def]; dsimp only; rw [if_pos hb]
      rw [e]
      exact adjustFinalize_inv t st h
    · have e : Media.adjustLoop t st (p :: rest) =
          Media.adjustLoop t (Media.adjustStep t st p) rest := by
        rw [Media.adjustLoop.eq_def]; dsimp only; rw [if_neg hb]
      rw [e]
      have step := adjustStep_inv t st p h
      have tail := ih (Media.adjustStep t st p) step.1
      exact ⟨tail.1, tail.2.1.trans step.2.1, tail.2.2.trans step.2.2⟩

/-- C7 (corrected): across every run of the re-synchronization loop, a
decoded video frame or audio block is pushed into its queue only when its
timestamp is at or after the wanted timepoint — everything earlier is
discarded without ever being pushed — and as soon as both open streams have
produced a unit at or after the target the loop stops at once (running only
the clock-rebasing finalize block, consuming no further packet).  Unlike the
claim, the loop can also end at end-of-stream before both streams have
produced such a unit, and the first accepted video frame need not be
retained in the queue (see the counterexample). -/
theorem adjustSeek_discards_before_target (t : ℚ) (st : Media.AdjustState)
    (ps : List Packet)
    (hv : ∀ f ∈ st.video_pushed, t ≤ CalculateVideoPts st.media.video_time_base f)
    (ha : ∀ a ∈ st.audio_pushed, t ≤ CalculateAudioPts st.media.audio_time_base a) :
    ((∀ f ∈ (Media.adjustLoop t st ps).video_pushed,
        t ≤ CalculateVideoPts st.media.video_time_base f) ∧
      (∀ a ∈ (Media.adjustLoop t st ps).audio_pushed,
        t ≤ CalculateAudioPts st.media.audio_time_base a)) ∧
      (st.video_seeked = true → st.audio_seeked = true →
        Media.adjustLoop t st ps = Media.adjustFinalize st) := by
  have h := adjustLoop_inv t ps st ⟨hv, ha⟩
  constructor
  · constructor
    · intro f hf
      have := h.1.1 f hf
      rwa [h.2.1] at this
    · intro a hA
      have := h.1.2 a hA
      rwa [h.2.2] at this
  · intro h1 h2
    rw [Media.adjustLoop.eq_def]
    simp [h1, h2]

/-- Witness for C7 (corrected): the theorem applied to the concrete
two-stream run `seekPacketsB` seeking to `t = 1`. -/
theorem adjustSeek_discards_before_target_witness :
    ((∀ f ∈ (Media.adjustLoop 1 seekStateB seekPacketsB).video_pushed,
        (1 : ℚ) ≤ CalculateVideoPts seekStateB.media.video_time_base f) ∧
      (∀ a ∈ (Media.adjustLoop 1 seekStateB seekPacketsB).audio_pushed,
        (1 : ℚ) ≤ CalculateAudioPts seekStateB.media.audio_time_base a)) ∧
      (seekStateB.video_seeked = true → seekStateB.audio_seeked = true →
        Media.adjustLoop 1 seekStateB seekPacketsB = Media.adjustFinalize seekStateB) :=
  adjustSeek_discards_before_target 1 seekStateB seekPacketsB
    (by intro f hf; simp [seekStateB] at hf) (by intro a hA; simp [seekStateB] at hA)

/-- C7 (counterexample): two concrete runs refute the claim as stated.
Run A (video only, target `t = 1`): the demuxer yields a single frame at pts
0, the loop ends at end-of-stream with `video_seeked` still false — it does
not terminate "only after each open stream has produced a unit at or after
the target".  Run B (video and audio, capacity-2 queue, target `t = 1`): the
first accepted video frame (pts 1) is pushed but then evicted by the next
accepted frame while the loop waits for audio, so the first accepted unit is
not retained. -/
theorem adjustSeek_counterexample :
    (Media.adjustLoop 1 seekStateA [.video ⟨0, 100⟩]).video_seeked = false ∧
      seekStateA.media.video_opened = true ∧
      (⟨25, 100⟩ : VFrame) ∈ (Media.adjustLoop 1 seekStateB seekPacketsB).video_pushed ∧
      (⟨25, 100⟩ : VFrame) ∉
        (Media.adjustLoop 1 seekStateB seekPacketsB).media.video_fifo.toList ∧
      (1 : ℚ) ≤ CalculateVideoPts sampleTimeBase ⟨25, 100⟩ :=
  ⟨by decide, by decide, by decide, by decide, by decide⟩

/-- C8 (confirmed): when the coarse seek request fails, `Seek` leaves both
queues untouched, restarts decoding (`keep_loading` set, finished flag
cleared), resumes playback (not paused afterwards) and reports the failure
as `Result::Error`. -/
theorem seek_failure_resumes_and_reports (m : MediaState) (t : ℚ) (ps : List Packet)
    (hopen : (m.video_opened || m.audio_opened) = true) :
    (Media.Seek m false t ps).2 = .Error ∧
      (Media.Seek m false t ps).1.video_fifo = m.video_fifo ∧
      (Media.Seek m false t ps).1.audio_fifo = m.audio_fifo ∧
      (Media.Seek m false t ps).1.is_paused = false ∧
      (Media.Seek m false t ps).1.keep_loading = true ∧
      (Media.Seek m false t ps).1.finished_reading = false := by
  unfold Media.Seek Media.PauseM Media.PlayM Media.StopDecodingThreadM
    Media.StartDecodingThreadM Media.IsVideoOpened Media.IsAudioOpened Media.IsPaused
  cases hv : m.video_opened <;> cases ha : m.audio_opened <;>
    cases hp : m.is_paused <;> simp_all

/-- The committed-frame list has length `_size`. -/
theorem VideoQueue.toList_length (q : VideoQueue) : q.toList.length = q._size := by
  simp [VideoQueue.toList]

/-- An empty queue has an empty committed-frame list. -/
theorem VideoQueue.toList_eq_nil (q : VideoQueue) (h : q._size = 0) : q.toList = [] := by
  simp [VideoQueue.toList, h]

/-- `pop` preserves well-formedness. -/
theorem VideoQueue.WF_pop (q : VideoQueue) (h : q.WF) : q.pop.WF := by
  obtain ⟨hlen, hdel, hins, hsize, hcap⟩ := h
  unfold VideoQueue.WF VideoQueue.pop
  split
  · refine ⟨?_, ?_, ?_, ?_, ?_⟩ <;> dsimp only
    · simp [hlen]
    · exact Nat.mod_lt _ (by omega)
    · exact hins
    · omega
    · exact hcap
  · exact ⟨hlen, hdel, hins, hsize, hcap⟩

/-- `pop` on a non-empty queue decrements the size. -/
theorem VideoQueue.pop_size (q : VideoQueue) (hs : 0 < q._size) :
    q.pop._size = q._size - 1 := by
  simp [VideoQueue.pop, hs]

/-- On a well-formed non-empty queue, the committed frames are the front
frame followed by the committed frames after a `pop`. -/
theorem VideoQueue.toList_pop (q : VideoQueue) (h : q.WF) (hs : 0 < q._size) :
    q.toList = q.front :: q.pop.toList := by
  obtain ⟨hlen, hdel, hins, hsize, hcap⟩ := h
  have hpop : q.pop = { q with _data := q._data.set q._delete_idx emptyVFrame,
                               _delete_idx := (q._delete_idx + 1) % q._capacity,
                               _size := q._size - 1 } := by
    rw [VideoQueue.pop, if_pos hs]
  have hszeq : q._size = (q._size - 1) + 1 := by omega
  rw [VideoQueue.toList, hszeq, List.range_succ_eq_map, List.map_cons, List.map_map]
  rw [hpop, VideoQueue.toList]
  congr 1
  · simp [VideoQueue.front, Nat.mod_eq_of_lt hdel]
  · apply List.map_congr_left
    intro i hi
    have hi' : i < q._size - 1 := List.mem_range.mp hi
    have hidx : ((q._delete_idx + 1) % q._capacity + i) % q._capacity =
        (q._delete_idx + (i + 1)) % q._capacity := by
      rw [Nat.mod_add_mod]
      congr 1
      omega
    have hne : q._delete_idx ≠ (q._delete_idx + (i + 1)) % q._capacity := by
      rcases Nat.lt_or_ge (q._delete_idx + (i + 1)) q._capacity with hlt | hge
      · rw [Nat.mod_eq_of_lt hlt]; omega
      · rw [Nat.mod_eq_sub_mod hge, Nat.mod_eq_of_lt (by omega)]; omega
    show q._data.getD ((q._delete_idx + (i + 1)) % q._capacity) emptyVFrame =
      (q._data.set q._delete_idx emptyVFrame).getD
        (((q._delete_idx + 1) % q._capacity + i) % q._capacity) emptyVFrame
    rw [hidx, List.getD_eq_getElem?_getD, List.getD_eq_getElem?_getD,
      List.getElem?_set_ne hne]

/-- When the worker flag is clear, `FinishedReading` is false in every
state. -/
theorem finishedReading_false_of_flag (m : MediaState)
    (h : m.finished_reading = false) : Media.FinishedReading m = false := by
  unfold Media.FinishedReading
  split
  · rfl
  · simp [h]

/-- `PeekFrame` on a non-empty queue returns the front frame. -/
theorem peekFrame_some (m : MediaState) (hs : 0 < m.video_fifo._size) :
    Media.PeekFrame m = some m.video_fifo.front := by
  simp [Media.PeekFrame, VideoQueue.size, hs]

/-- `PeekFrame` on an empty queue returns the null pointer. -/
theorem peekFrame_none (m : MediaState) (hs : m.video_fifo._size = 0) :
    Media.PeekFrame m = none := by
  simp [Media.PeekFrame, VideoQueue.size, hs]

/-- `SkipVideoFrame` pops when video is open, the worker flag is clear and
the queue is non-empty. -/
theorem skipVideoFrame_pop (m : MediaState) (hopen : m.video_opened = true)
    (hflag : m.finished_reading = false) (hs : 0 < m.video_fifo._size) :
    Media.SkipVideoFrame m = ({ m with video_fifo := m.video_fifo.pop }, .Success) := by
  unfold Media.SkipVideoFrame
  simp [Media.IsVideoOpened, hopen, finishedReading_false_of_flag m hflag,
    VideoQueue.size, hs]

/-- The argument-less `GetVideoFrame` pops and presents the front frame when
video is open, the worker flag is clear and the queue is non-empty. -/
theorem getVideoFrameNow_pop (m : MediaState) (hopen : m.video_opened = true)
    (hflag : m.finished_reading = false) (hs : 0 < m.video_fifo._size) :
    Media.GetVideoFrameNow m =
      ({ m with video_frame := m.video_fifo.front, video_fifo := m.video_fifo.pop },
        .decal m.video_fifo.front) := by
  unfold Media.GetVideoFrameNow
  simp [Media.IsVideoOpened, hopen, finishedReading_false_of_flag m hflag,
    VideoQueue.size, hs]

/-- The synchronization loop of `GetVideoFrame(delta_time)` satisfies the
`SyncOutcome` specification on every well-formed state with video open and
the worker flag clear, provided the fuel exceeds the queue size (as it does
at the call site). -/
theorem getVideoFrameLoop_spec :
    ∀ (n : Nat) (m : MediaState) (tr : ℚ),
      m.video_opened = true → m.finished_reading = false →
      m.video_fifo.WF → m.video_fifo._size < n →
      SyncOutcome m.video_time_base m.video_fifo.toList m.video_frame tr
        (Media.GetVideoFrameLoop n tr m) := by
  intro n
  induction n with
  | zero => intro m tr _ _ _ hn; omega
  | succ n ih =>
    intro m tr hopen hflag hwf hn
    by_cases hs : 0 < m.video_fifo._size
    case neg =>
      have hs0 : m.video_fifo._size = 0 := by omega
      have e : Media.GetVideoFrameLoop (n + 1) tr m = (m, .decal m.video_frame) := by
        rw [Media.GetVideoFrameLoop, peekFrame_none m hs0]
      rw [e]
      unfold SyncOutcome
      rw [VideoQueue.toList_eq_nil _ hs0]
      exact ⟨rfl, hs0, rfl⟩
    case pos =>
      have hpeek : Media.PeekFrame m = some m.video_fifo.front := peekFrame_some m hs
      set f := m.video_fifo.front with hf
      set m' : MediaState :=
        { m with last_video_pts := CalculateVideoPts m.video_time_base f } with hm'
      have hL : m.video_fifo.toList = f :: m.video_fifo.pop.toList :=
        VideoQueue.toList_pop m.video_fifo hwf hs
      by_cases hcmp : tr ≤ CalculateVideoPts m.video_time_base f
      case pos =>
        have e : Media.GetVideoFrameLoop (n + 1) tr m = Media.GetVideoFrameNow m' := by
          rw [Media.GetVideoFrameLoop, hpeek]
          dsimp only
          rw [if_pos hcmp]
        have hnow := getVideoFrameNow_pop m' hopen hflag hs
        rw [e, hnow]
        unfold SyncOutcome
        rw [hL, List.dropWhile_cons_of_neg (by simpa using hcmp)]
        exact ⟨rfl, rfl, rfl, hcmp⟩
      case neg =>
        have hlt : CalculateVideoPts m.video_time_base f < tr := lt_of_not_le hcmp
        have e : Media.GetVideoFrameLoop (n + 1) tr m =
            Media.GetVideoFrameLoop n tr (Media.SkipVideoFrame m').1 := by
          rw [Media.GetVideoFrameLoop, hpeek]
          dsimp only
          rw [if_neg hcmp]
        have hskip : Media.SkipVideoFrame m' =
            ({ m' with video_fifo := m'.video_fifo.pop }, .Success) :=
          skipVideoFrame_pop m' hopen hflag hs
        have ihres := ih ({ m' with video_fifo := m'.video_fifo.pop }) tr hopen hflag
          (VideoQueue.WF_pop _ hwf)
          (by dsimp only; rw [VideoQueue.pop_size m.video_fifo hs]; omega)
        rw [e, hskip]
        unfold SyncOutcome at ihres ⊢
        rw [hL, List.dropWhile_cons_of_pos (by simpa using hlt)]
        exact ihres

/-- The argument-less `GetVideoFrame` on an empty queue returns the current
frame and changes nothing. -/
theorem getVideoFrameNow_empty (m : MediaState) (hempty : m.video_fifo._size = 0) :
    Media.GetVideoFrameNow m = (m, .decal m.video_frame) := by
  have hlt : ¬ (0 < m.video_fifo.size) := by simp [VideoQueue.size, hempty]
  unfold Media.GetVideoFrameNow
  have hlt2 : ¬ (0 < m.video_fifo.size) := hlt
  repeat' split
  all_goals rfl

/-- The synchronization loop on an empty queue returns the current frame at
once. -/
theorem getVideoFrameLoop_empty (n : Nat) (tr : ℚ) (m : MediaState)
    (hempty : m.video_fifo._size = 0) :
    Media.GetVideoFrameLoop (n + 1) tr m = (m, .decal m.video_frame) := by
  rw [Media.GetVideoFrameLoop, peekFrame_none m hempty]

/-- C1 (corrected): for every call to `GetVideoFrame(delta_time)` with video
opened, playing, the worker flag clear, no attached picture, a well-formed
queue, and the reference time at or after `last_video_pts` (otherwise the
call returns at once), the loop pops queued frames exactly while the front
frame's timestamp is STRICTLY LESS than the reference time, and then also
pops and presents the first frame whose timestamp is at or after the
reference time (an exact-equal timestamp is presented) — so the frame made
current is the earliest queued frame not before the reference time, and its
timestamp MAY exceed the reference time; when every queued frame lies before
the reference time the queue is drained and the previous frame is kept. -/
theorem getVideoFrame_sync_spec (m : MediaState) (dt : ℚ)
    (hopen : m.video_opened = true) (hflag : m.finished_reading = false)
    (hpause : m.is_paused = false) (hpic : m.attached_pic = false)
    (hwf : m.video_fifo.WF)
    (htr : m.last_video_pts ≤
      (if m.audio_opened = true then m.audio_time else m.delta_time_accumulator + dt)) :
    SyncOutcome m.video_time_base m.video_fifo.toList m.video_frame
      (if m.audio_opened = true then m.audio_time else m.delta_time_accumulator + dt)
      (Media.GetVideoFrameDelta m dt) := by
  have hfr : Media.FinishedReading m = false := finishedReading_false_of_flag m hflag
  have c1 : ¬ (Media.IsVideoOpened m = false) := by simp [Media.IsVideoOpened, hopen]
  have c2 : ¬ (Media.FinishedReading m = true) := by simp [hfr]
  have c3 : ¬ (Media.IsPaused m = true) := by simp [Media.IsPaused, hpause]
  have c4 : ¬ (Media.HasAlbumArt m = true) := by simp [Media.HasAlbumArt, hpic]
  unfold Media.GetVideoFrameDelta
  rw [if_neg c1, if_neg c2, if_neg c3, if_neg c4]
  by_cases haud : m.audio_opened = true
  · have haud' : Media.IsAudioOpened m = true := by
      simpa [Media.IsAudioOpened] using haud
    rw [if_pos haud] at htr ⊢
    dsimp only
    rw [if_pos haud']
    dsimp only
    rw [if_neg (not_lt.mpr htr)]
    exact getVideoFrameLoop_spec _ m _ hopen hflag hwf (Nat.lt_succ_self _)
  · have haud' : ¬ (Media.IsAudioOpened m = true) := by
      simpa [Media.IsAudioOpened] using haud
    rw [if_neg haud] at htr ⊢
    dsimp only
    rw [if_neg haud']
    dsimp only
    rw [if_neg (not_lt.mpr htr)]
    exact getVideoFrameLoop_spec _
      { m with delta_time_accumulator := m.delta_time_accumulator + dt } _
      hopen hflag hwf (Nat.lt_succ_self _)

/-- Witness for C1 (corrected): the theorem applied at `c1State` (audio
clock `0.05`, one queued frame at pts `0.08`). -/
theorem getVideoFrame_sync_spec_witness :
    (c1State.video_opened = true ∧ c1State.finished_reading = false ∧
        c1State.is_paused = false ∧ c1State.attached_pic = false ∧
        c1State.video_fifo.WF ∧
        c1State.last_video_pts ≤
          (if c1State.audio_opened = true then c1State.audio_time
           else c1State.delta_time_accumulator + 0)) ∧
      SyncOutcome c1State.video_time_base c1State.video_fifo.toList c1State.video_frame
        (if c1State.audio_opened = true then c1State.audio_time
         else c1State.delta_time_accumulator + 0)
        (Media.GetVideoFrameDelta c1State 0) :=
  ⟨⟨by decide, by decide, by decide, by decide, by decide, by decide⟩,
    getVideoFrame_sync_spec c1State 0 (by decide) (by decide) (by decide) (by decide)
      (by decide) (by decide)⟩

/-- C1 (counterexample): at `c1State` the reference time is the audio clock
`0.05` and the only queued frame has pts `0.08 > 0.05`; the call nevertheless
pops that frame (the queue ends empty) and makes it current, so the frame
made current has a timestamp greater than the reference time, and a frame
was popped although the front frame's timestamp exceeded the reference. -/
theorem getVideoFrame_past_reference_counterexample :
    c1State.video_opened = true ∧ c1State.finished_reading = false ∧
      c1State.is_paused = false ∧ c1State.attached_pic = false ∧
      c1State.audio_opened = true ∧
      (Media.GetVideoFrameDelta c1State 0).2 = .decal ⟨2, 100⟩ ∧
      (Media.GetVideoFrameDelta c1State 0).1.video_fifo.size = 0 ∧
      ¬ (CalculateVideoPts c1State.video_time_base ⟨2, 100⟩ ≤ c1State.audio_time) :=
  ⟨by decide, by decide, by decide, by decide, by decide, by decide, by decide, by decide⟩

/-- One starved `GetVideoFrame(delta_time)` call (video open, worker flag
clear, queue empty) returns the current frame's decal and leaves the
relevant state unchanged. -/
theorem getVideoFrameDelta_starved_step (m : MediaState) (dt : ℚ)
    (hopen : m.video_opened = true) (hflag : m.finished_reading = false)
    (hempty : m.video_fifo._size = 0) :
    (Media.GetVideoFrameDelta m dt).2 = .decal m.video_frame ∧
      (Media.GetVideoFrameDelta m dt).1.video_frame = m.video_frame ∧
      (Media.GetVideoFrameDelta m dt).1.video_opened = true ∧
      (Media.GetVideoFrameDelta m dt).1.finished_reading = false ∧
      (Media.GetVideoFrameDelta m dt).1.video_fifo._size = 0 := by
  have hfr : Media.FinishedReading m = false := finishedReading_false_of_flag m hflag
  have c1 : ¬ (Media.IsVideoOpened m = false) := by simp [Media.IsVideoOpened, hopen]
  have c2 : ¬ (Media.FinishedReading m = true) := by simp [hfr]
  unfold Media.GetVideoFrameDelta
  rw [if_neg c1, if_neg c2]
  by_cases hp : Media.IsPaused m = true
  · rw [if_pos hp]
    exact ⟨rfl, rfl, hopen, hflag, hempty⟩
  · rw [if_neg hp]
    by_cases hpic : Media.HasAlbumArt m = true
    · rw [if_pos hpic, getVideoFrameNow_empty m hempty]
      exact ⟨rfl, rfl, hopen, hflag, hempty⟩
    · rw [if_neg hpic]
      by_cases haud : Media.IsAudioOpened m = true
      · dsimp only
        rw [if_pos haud]
        dsimp only
        split
        · exact ⟨rfl, rfl, hopen, hflag, hempty⟩
        · rw [getVideoFrameLoop_empty _ _ m hempty]
          exact ⟨rfl, rfl, hopen, hflag, hempty⟩
      · dsimp only
        rw [if_neg haud]
        dsimp only
        split
        · exact ⟨rfl, rfl, hopen, hflag, hempty⟩
        · rw [getVideoFrameLoop_empty _ _
            { m with delta_time_accumulator := m.delta_time_accumulator + dt } hempty]
          exact ⟨rfl, rfl, hopen, hflag, hempty⟩

/-- C5 (confirmed): for every sequence of `GetVideoFrame(delta_time)` calls
made while video is open and the decode worker is stalled with an empty
queue (worker flag clear, no frame arriving), every call returns the decal
of the same last produced frame — never a null frame, never an error — and
the state keeps satisfying the same conditions. -/
theorem getVideoFrame_starved_returns_last :
    ∀ (dts : List ℚ) (m : MediaState), m.video_opened = true →
      m.finished_reading = false → m.video_fifo._size = 0 →
      ∀ d ∈ Media.runDeltaCalls m dts,
        d = .decal m.video_frame ∧ d ≠ DecalPtr.null := by
  intro dts
  induction dts with
  | nil =>
    intro m _ _ _ d hd
    simp [Media.runDeltaCalls] at hd
  | cons dt rest ih =>
    intro m hopen hflag hempty d hd
    have step := getVideoFrameDelta_starved_step m dt hopen hflag hempty
    rw [Media.runDeltaCalls] at hd
    rcases List.mem_cons.mp hd with hd | hd
    · refine ⟨hd.trans step.1, ?_⟩
      rw [hd, step.1]
      simp
    · have tail := ih (Media.GetVideoFrameDelta m dt).1 step.2.2.1 step.2.2.2.1
        step.2.2.2.2 d hd
      rw [step.2.1] at tail
      exact tail

/-- Witness for C5: two concrete starved calls on `sampleState`. -/
theorem getVideoFrame_starved_returns_last_witness :
    (sampleState.video_opened = true ∧ sampleState.finished_reading = false ∧
        sampleState.video_fifo._size = 0) ∧
      ∀ d ∈ Media.runDeltaCalls sampleState [mkRat 1 100, mkRat 1 50],
        d = .decal sampleState.video_frame ∧ d ≠ DecalPtr.null :=
  ⟨⟨by decide, by decide, by decide⟩,
    getVideoFrame_starved_returns_last [mkRat 1 100, mkRat 1 50] sampleState
      (by decide) (by decide) (by decide)⟩

/-- Witness for C8: `sampleState` has a stream open and the theorem applies
to a failing seek there. -/
theorem seek_failure_resumes_and_reports_witness :
    (sampleState.video_opened || sampleState.audio_opened) = true ∧
      (Media.Seek sampleState false 1 []).2 = .Error ∧
      (Media.Seek sampleState false 1 []).1.video_fifo = sampleState.video_fifo ∧
      (Media.Seek sampleState false 1 []).1.is_paused = false :=
  ⟨by decide,
    (seek_failure_resumes_and_reports sampleState 1 [] (by decide)).1,
    (seek_failure_resumes_and_reports sampleState 1 [] (by decide)).2.1,
    (seek_failure_resumes_and_reports sampleState 1 [] (by decide)).2.2.2.1⟩

end OlcMedia
